import Mathlib

/-!
Verification of the market-data ingestion and repair engine of `simple-bot`.

The definitions below are a shallow embedding of the Python sources:

* `src/packages/database/db.py` — `DatabaseManager` (candle store over SQLite,
  gap detection, unfillable-gap memoization);
* `src/apps/backfiller/main.py` — `Backfiller.backfill` and
  `Backfiller._fetch_range` (the backfill controller and the paginated range
  fetcher);
* `src/packages/websocket/websocket.py` — `WebSocketManager.watch_ohlcv` and
  `WebSocketManager._store_ohlcv` (the live stream writer).

The SQLite `ohlcv_data` table (`src/schema.py`) is modelled as a list of rows;
its `UNIQUE(exchange, symbol, timeframe, timestamp)` constraint makes
`INSERT OR IGNORE` a key-guarded append and `INSERT OR REPLACE` a key-guarded
replacement, which is how the two insert modes are embedded here.  Prices are
REAL in the schema but no verified property computes with them, so they are
carried as integers.  Time-dependent values (`datetime.now()`) are passed in as
explicit `now` arguments.
-/

/-- One OHLCV row of the `ohlcv_data` table (`src/schema.py`, CREATE_OHLCV_TABLE).
The `id` / `created_at` bookkeeping columns play no role in any query used by
the engine and are omitted.  `open` is a Lean keyword, hence `open_price` (the
name the backfiller itself uses for the unpacked field). -/
structure Candle where
  exchange : String
  symbol : String
  timeframe : String
  timestamp : Int
  open_price : Int
  high : Int
  low : Int
  close : Int
  volume : Int
deriving DecidableEq

/-- The uniqueness key of `ohlcv_data`: UNIQUE(exchange, symbol, timeframe, timestamp). -/
def Candle.key (c : Candle) : String × String × String × Int :=
  (c.exchange, c.symbol, c.timeframe, c.timestamp)

/-- The candle store: the rows of `ohlcv_data`, in insertion order. -/
abbrev Store := List Candle

/-- Does a row with this uniqueness key exist in the store? -/
def hasKey (store : Store) (k : String × String × String × Int) : Bool :=
  store.any (fun r => decide (r.key = k))

/-- `INSERT OR IGNORE` of one row: a no-op when a row with the same
`(exchange, symbol, timeframe, timestamp)` key exists, otherwise an append.
Returns the new store and whether a row was inserted (sqlite `rowcount`). -/
def insert_or_ignore (store : Store) (c : Candle) : Store × Bool :=
  if hasKey store c.key then (store, false) else (store ++ [c], true)

/-- One step of the executemany fold: run `insert_or_ignore` and add its
rowcount contribution. -/
def insertFold (acc : Store × Nat) (c : Candle) : Store × Nat :=
  let r := insert_or_ignore acc.1 c
  (r.1, acc.2 + (if r.2 then 1 else 0))

/-- `DatabaseManager.insert_ohlcv_batch` (`db.py`): executemany of
`INSERT OR IGNORE`, returning the number of rows actually inserted
(duplicates are ignored and not counted). -/
def insert_ohlcv_batch (store : Store) (batch : List Candle) : Store × Nat :=
  batch.foldl insertFold (store, 0)

/-- The store's uniqueness invariant: no two rows share
`(exchange, symbol, timeframe, timestamp)`. -/
def keysNodup (store : Store) : Prop :=
  (store.map Candle.key).Nodup

/-- The timestamps of the rows of one series `(exchange, symbol, timeframe)`,
in store order (the `WHERE exchange = ? AND symbol = ? AND timeframe = ?`
restriction common to all series-scoped queries in `db.py`). -/
def seriesTimestamps (store : Store) (ex sym tf : String) : List Int :=
  (store.filter
    (fun c => decide (c.exchange = ex ∧ c.symbol = sym ∧ c.timeframe = tf))).map
    (fun c => c.timestamp)

/-- `DatabaseManager.get_latest_timestamp`: `SELECT MAX(timestamp) ...`,
post-processed by `result['latest'] if result['latest'] else None`, so a
maximum of `0` is collapsed to `None` by Python truthiness. -/
def get_latest_timestamp (store : Store) (ex sym tf : String) : Option Int :=
  match (seriesTimestamps store ex sym tf).max? with
  | none => none
  | some m => if m = 0 then none else some m

/-- `DatabaseManager.get_earliest_timestamp`: `SELECT MIN(timestamp) ...`,
with the same truthiness collapse of `0` to `None`. -/
def get_earliest_timestamp (store : Store) (ex sym tf : String) : Option Int :=
  match (seriesTimestamps store ex sym tf).min? with
  | none => none
  | some m => if m = 0 then none else some m

/-- `DatabaseManager.get_data_count`: `SELECT COUNT(*) ...` for the series. -/
def get_data_count (store : Store) (ex sym tf : String) : Nat :=
  (seriesTimestamps store ex sym tf).length

/-- The consecutive pairs of the series' timestamps in ascending order
(`LEAD(timestamp) OVER (ORDER BY timestamp)` in `find_gaps`), filtered to
those whose delta exceeds `2 * tf_ms`. -/
def gapPairs (store : Store) (ex sym tf : String) (tfms : Int) : List (Int × Int) :=
  let ts := List.insertionSort (· ≤ ·) (seriesTimestamps store ex sym tf)
  (ts.zip ts.tail).filter (fun p => decide (2 * tfms < p.2 - p.1))

/-- `DatabaseManager.find_gaps` (`db.py`): report every pair of consecutively
stored timestamps whose delta exceeds `2 * tf_ms` (`WHERE next_ts - ts > ?`
with parameter `tf_ms * 2`), bounded by `LIMIT 100`. -/
def find_gaps (store : Store) (ex sym tf : String) (tfms : Int) : List (Int × Int) :=
  (gapPairs store ex sym tf tfms).take 100

/-- A row of the `unfillable_gaps` memo table.
Modelled from the spec: the unfillable-gap table is "keyed by
`(exchange, symbol, timeframe, gap_start, gap_end)` unique" (§6, Persisted
layout); its CREATE TABLE statement is absent from the sources (only
`db.py`'s queries and `migrate_timestamps.py` reference it), and
`INSERT OR IGNORE` in `mark_unfillable_gap` relies on that uniqueness. -/
abbrev GapKey := String × String × String × Int × Int

/-- `DatabaseManager.is_unfillable_gap` (`db.py`): exact-bounds `SELECT COUNT(*)`
lookup in the memo table. -/
def is_unfillable_gap (memo : List GapKey) (ex sym tf : String) (gs ge : Int) : Bool :=
  decide ((ex, sym, tf, gs, ge) ∈ memo)

/-- `DatabaseManager.mark_unfillable_gap` (`db.py`): `INSERT OR IGNORE` into the
memo table, a no-op when the exact 5-tuple is already recorded. -/
def mark_unfillable_gap (memo : List GapKey) (ex sym tf : String) (gs ge : Int) :
    List GapKey :=
  if (ex, sym, tf, gs, ge) ∈ memo then memo else memo ++ [(ex, sym, tf, gs, ge)]

/-- A raw candle as returned by `exchange.fetch_ohlcv` / `watch_ohlcv`:
the `[timestamp, open, high, low, close, volume]` array, before the series
identity is attached. -/
structure Raw where
  ts : Int
  o : Int
  h : Int
  l : Int
  c : Int
  v : Int
deriving DecidableEq

/-- Attach the series identity to a raw source candle, as the backfiller's
batch construction and the stream writer's `_store_ohlcv` call both do. -/
def rawToCandle (ex sym tf : String) (r : Raw) : Candle :=
  { exchange := ex, symbol := sym, timeframe := tf, timestamp := r.ts,
    open_price := r.o, high := r.h, low := r.l, close := r.c, volume := r.v }

/-- One response of `exchange.fetch_ohlcv`: a page of candles, a transient
`ccxt.NetworkError`, or a permanent `ccxt.ExchangeError`. -/
inductive FetchResult where
  | page (candles : List Raw)
  | networkError
  | exchangeError
deriving DecidableEq

/-- The external source, as the range fetcher sees it: a deterministic map
from (number of requests issued so far, requested `since` cursor) to one
response.  Indexing by the request count lets a source answer differently
over time (misbehave, recover from a transient error, run dry). -/
abbrev Source := Nat → Int → FetchResult

/-- The in-memory pagination state of one `Backfiller._fetch_range` call,
together with the store it writes to.  `requests` logs the `since` value of
every `fetch_ohlcv` call actually issued; `iterations` counts loop passes
(the Python `iterations` counter). -/
structure FetchState where
  store : Store
  total_inserted : Nat
  consecutive_empty : Nat
  consecutive_no_inserts : Nat
  iterations : Nat
  last_oldest_ts : Option Int
  since : Int
  requests : List Int
deriving DecidableEq

/-- The convergence test `last_oldest_ts is not None and oldest_ts >= last_oldest_ts`. -/
def dupSeen (last : Option Int) (oldest : Int) : Bool :=
  match last with
  | none => false
  | some lo => decide (lo ≤ oldest)

/-- The page filtered to `[start_ts, end_ts]` and tagged with the series
identity: the `batch` list built inside `_fetch_range`'s loop (pages may
overrun the requested bounds; out-of-range candles are dropped before
storing). -/
def pageBatch (ex sym tf : String) (start_ts end_ts : Int) (ohlcv : List Raw) :
    List Candle :=
  (ohlcv.filter (fun r => decide (start_ts ≤ r.ts ∧ r.ts ≤ end_ts))).map
    (rawToCandle ex sym tf)

/-- The `if batch:` block of `_fetch_range` (lines 253-265): upsert the
filtered batch, add the rows actually inserted to the running total, reset
the zero-insert counter on progress, and stop after three consecutive
zero-insert batches.  An entirely filtered-out page skips the block. -/
def insertPhase (ex sym tf : String) (start_ts end_ts : Int) (ohlcv : List Raw)
    (st : FetchState) : FetchState × Bool :=
  let batch := pageBatch ex sym tf start_ts end_ts ohlcv
  if batch.isEmpty then (st, true)
  else
    let ins := insert_ohlcv_batch st.store batch
    let st : FetchState :=
      { st with
        store := ins.1
        total_inserted := st.total_inserted + ins.2 }
    if 0 < ins.2 then ({ st with consecutive_no_inserts := 0 }, true)
    else
      let st : FetchState :=
        { st with
          consecutive_no_inserts := st.consecutive_no_inserts + 1 }
      if 3 ≤ st.consecutive_no_inserts then (st, false) else (st, true)

/-- One pass of the `while` loop of `Backfiller._fetch_range`
(`src/apps/backfiller/main.py`, lines 197-275).  Returns the state after the
pass and `true` when the loop continues (`false` embeds `break`/`return`).
Order of effects mirrors the Python: increment `iterations`; exit when the
cursor has reached `start_ts`; issue the request; on a network error retry
the same cursor; on an exchange error stop; on an empty page step the cursor
back by `1000 * tf_ms` unless this is the third consecutive empty page; on a
non-empty page reset the empty counter, stop if the page's oldest timestamp
is not older than the previous page's, filter the page to
`[start_ts, end_ts]`, upsert it, stop after three consecutive zero-insert
batches, and step the cursor to `oldest_ts - len(page) * tf_ms`. -/
def fetchStep (src : Source) (ex sym tf : String) (tfms start_ts end_ts : Int)
    (st : FetchState) : FetchState × Bool :=
  let st := { st with iterations := st.iterations + 1 }
  if st.since ≤ start_ts then (st, false)
  else
    let resp := src st.requests.length st.since
    let st := { st with requests := st.requests ++ [st.since] }
    match resp with
    | FetchResult.networkError => (st, true)
    | FetchResult.exchangeError => (st, false)
    | FetchResult.page [] =>
      let st := { st with consecutive_empty := st.consecutive_empty + 1 }
      if 3 ≤ st.consecutive_empty then (st, false)
      else ({ st with since := st.since - 1000 * tfms }, true)
    | FetchResult.page (c0 :: rest) =>
      let ohlcv := c0 :: rest
      let st := { st with consecutive_empty := 0 }
      let oldest_ts := c0.ts
      if dupSeen st.last_oldest_ts oldest_ts then (st, false)
      else
        let st := { st with last_oldest_ts := some oldest_ts }
        let res := insertPhase ex sym tf start_ts end_ts ohlcv st
        if res.2 then
          ({ res.1 with since := oldest_ts - (ohlcv.length : Int) * tfms }, true)
        else res

/-- The `while iterations < max_iterations` loop, with the remaining allowed
passes as fuel. -/
def fetchLoop (src : Source) (ex sym tf : String) (tfms start_ts end_ts : Int) :
    Nat → FetchState → FetchState
  | 0, st => st
  | fuel + 1, st =>
    let r := fetchStep src ex sym tf tfms start_ts end_ts st
    if r.2 then fetchLoop src ex sym tf tfms start_ts end_ts fuel r.1 else r.1

/-- The hard iteration cap of `_fetch_range` (`max_iterations = 10000`). -/
def max_iterations : Nat := 10000

/-- `Backfiller._fetch_range` (`src/apps/backfiller/main.py`, lines 172-277):
fetch `[start_ts, end_ts]` backward from `end_ts`, starting the cursor at
`end_ts - 500 * tf_ms`, writing through `insert_ohlcv_batch`.  The whole
final state is returned; the Python function's return value is its
`total_inserted` field. -/
def fetch_range (src : Source) (store : Store) (ex sym tf : String)
    (tfms start_ts end_ts : Int) : FetchState :=
  fetchLoop src ex sym tf tfms start_ts end_ts max_iterations
    { store := store, total_inserted := 0, consecutive_empty := 0,
      consecutive_no_inserts := 0, iterations := 0, last_oldest_ts := none,
      since := end_ts - 500 * tfms, requests := [] }

/-- The timeframe-to-milliseconds table `TIMEFRAME_MS` of the backfiller
(`dict.get` semantics: unknown timeframe gives `None`). -/
def TIMEFRAME_MS (tf : String) : Option Int :=
  if tf = "1m" then some 60000
  else if tf = "5m" then some 300000
  else if tf = "15m" then some 900000
  else if tf = "30m" then some 1800000
  else if tf = "1h" then some 3600000
  else if tf = "4h" then some 14400000
  else if tf = "8h" then some 28800000
  else if tf = "1d" then some 86400000
  else if tf = "1w" then some 604800000
  else if tf = "1M" then some 2592000000
  else none

/-- Milliseconds of `timedelta(days=1)`. -/
def DAY_MS : Int := 86400000

/-- `int(datetime(2017, 1, 1).timestamp() * 1000)` — the fixed historical
floor the backfiller targets when the store is empty, taken at UTC (the
Python value shifts with the host timezone). -/
def ORIGIN_2017 : Int := 1483228800000

/-- Python truthiness of the optional `days` argument: `if days:` is false
both for `None` and for `0`. -/
def truthyDays (days : Option Nat) : Bool :=
  match days with
  | none => false
  | some d => decide (d ≠ 0)

/-- The `target_start` of phase 1 of `Backfiller.backfill`
(`src/apps/backfiller/main.py`, lines 107-126): with a truthy `days`,
`max(now - days, earliest)` when an earliest timestamp exists and
`now - days` otherwise; without it, `earliest - 10 * tf_ms` when data
exists, else the 2017 floor.  `earliest` is the (truthiness-collapsed)
result of `get_earliest_timestamp`. -/
def phase1_target_start (earliest : Option Int) (tfms : Int) (days : Option Nat)
    (now : Int) : Int :=
  if truthyDays days then
    let since_ts := now - (days.getD 0 : Nat) * DAY_MS
    match earliest with
    | some e => max since_ts e
    | none => since_ts
  else
    match earliest with
    | some e => e - tfms * 10
    | none => ORIGIN_2017

/-- The gap list of phase 2 of `Backfiller.backfill` (lines 134-140): the
detector's output with the gaps already recorded as unfillable filtered out. -/
def fillable_gaps (store : Store) (memo : List GapKey) (ex sym tf : String)
    (tfms : Int) : List (Int × Int) :=
  (find_gaps store ex sym tf tfms).filter
    (fun g => !is_unfillable_gap memo ex sym tf g.1 g.2)

/-- The state threaded through phase 2 of `Backfiller.backfill`: the store and
memo table, the candles inserted by repairs, the windows handed to
`_fetch_range`, and the `failed_gaps` list. -/
structure RepairState where
  store : Store
  memo : List GapKey
  total_inserted : Nat
  windows : List (Int × Int)
  failed_gaps : List (Int × Int)
deriving DecidableEq

/-- The per-gap loop of phase 2 (lines 150-160): fetch each gap's window; a
repair that inserts zero candles is recorded as unfillable, any other adds
its count to the total. -/
def repair_gaps (src : Source) (ex sym tf : String) (tfms : Int) :
    List (Int × Int) → RepairState → RepairState
  | [], rs => rs
  | (gs, ge) :: rest, rs =>
    let fs := fetch_range src rs.store ex sym tf tfms gs ge
    let rs : RepairState :=
      { rs with store := fs.store, windows := rs.windows ++ [(gs, ge)] }
    if fs.total_inserted = 0 then
      repair_gaps src ex sym tf tfms rest
        { rs with
          memo := mark_unfillable_gap rs.memo ex sym tf gs ge
          failed_gaps := rs.failed_gaps ++ [(gs, ge)] }
    else
      repair_gaps src ex sym tf tfms rest
        { rs with total_inserted := rs.total_inserted + fs.total_inserted }

/-- The observable outcome of one `Backfiller.backfill` run: final store and
memo, the `(start, end)` windows passed to `_fetch_range` in order, and the
total of newly inserted candles. -/
structure BackfillResult where
  store : Store
  memo : List GapKey
  windows : List (Int × Int)
  total_inserted : Nat
deriving DecidableEq

/-- `Backfiller.backfill` (`src/apps/backfiller/main.py`, lines 73-170):
look up the timeframe spacing (an unknown timeframe returns immediately);
phase 1 fetches `[target_start, now]` backward from `now`; phase 2 — run
only when the series already had rows — detects gaps on the post-phase-1
store, filters out memoized ones, and repairs each in order.  There is no
further phase. -/
def backfill (src : Source) (store₀ : Store) (memo₀ : List GapKey)
    (ex sym tf : String) (days : Option Nat) (now : Int) : BackfillResult :=
  match TIMEFRAME_MS tf with
  | none => { store := store₀, memo := memo₀, windows := [], total_inserted := 0 }
  | some tfms =>
    let earliest := get_earliest_timestamp store₀ ex sym tf
    let existing_count := get_data_count store₀ ex sym tf
    let target_start := phase1_target_start earliest tfms days now
    let fs := fetch_range src store₀ ex sym tf tfms target_start now
    if 0 < existing_count then
      let gaps := fillable_gaps fs.store memo₀ ex sym tf tfms
      let rs := repair_gaps src ex sym tf tfms gaps
        { store := fs.store, memo := memo₀, total_inserted := 0,
          windows := [], failed_gaps := [] }
      { store := rs.store, memo := rs.memo,
        windows := (target_start, now) :: rs.windows,
        total_inserted := fs.total_inserted + rs.total_inserted }
    else
      { store := fs.store, memo := memo₀, windows := [(target_start, now)],
        total_inserted := fs.total_inserted }

/-- `INSERT OR REPLACE` of one row (`WebSocketManager._store_ohlcv`): the row
with the same uniqueness key, if any, is removed and the new row inserted. -/
def insert_or_replace (store : Store) (c : Candle) : Store :=
  store.filter (fun r => !decide (r.key = c.key)) ++ [c]

/-- One message observed by the `watch_ohlcv` loop: the page returned by
`exchange.watch_ohlcv`, whether the `db.execute` inside `_store_ohlcv`
raises (that error is caught and logged inside `_store_ohlcv` itself), and
whether the registered candle callback raises (that error propagates to the
loop's `except Exception` handler, which sleeps and re-enters the loop). -/
structure WatchEvent where
  page : List Raw
  db_error : Bool
  cb_error : Bool
deriving DecidableEq

/-- The observable state of one `watch_ohlcv` subscription: the store, the
timestamps for which the candle callback was invoked, the store-write
attempts as `(timestamp, succeeded)`, and the number of loop passes that ran
to completion of their message. -/
structure StreamState where
  store : Store
  callback_log : List Int
  write_log : List (Int × Bool)
  processed : Nat
deriving DecidableEq

/-- One pass of the `while self.running` loop of `WebSocketManager.watch_ohlcv`
(`src/packages/websocket/websocket.py`, lines 101-138): take the most recent
candle of a non-empty page, attempt the `INSERT OR REPLACE` write (a db
error is swallowed inside `_store_ohlcv`, leaving the store unchanged), then
invoke the registered callback if one exists.  A callback error is caught by
the loop's `except Exception` handler after the write and the invocation
have happened, so it changes no state and the loop re-enters; hence
`cb_error` has no effect on the resulting state. -/
def watch_ohlcv_step (ex sym tf : String) (has_cb : Bool) (st : StreamState)
    (ev : WatchEvent) : StreamState :=
  match ev.page.getLast? with
  | none => { st with processed := st.processed + 1 }
  | some latest =>
    let c := rawToCandle ex sym tf latest
    let store' := if ev.db_error then st.store else insert_or_replace st.store c
    let st : StreamState :=
      { st with
        store := store'
        write_log := st.write_log ++ [(latest.ts, !ev.db_error)] }
    let st : StreamState :=
      if has_cb then { st with callback_log := st.callback_log ++ [latest.ts] }
      else st
    { st with processed := st.processed + 1 }

/-- A `watch_ohlcv` subscription run over a finite prefix of its message
stream, starting from an empty store. -/
def watch_ohlcv_run (ex sym tf : String) (has_cb : Bool)
    (events : List WatchEvent) : StreamState :=
  events.foldl (watch_ohlcv_step ex sym tf has_cb)
    { store := [], callback_log := [], write_log := [], processed := 0 }

/-- `a` and `b` are consecutively stored timestamps of the series: both are
stored, `a < b`, and no stored timestamp lies strictly between them. -/
def consecutiveStored (store : Store) (ex sym tf : String) (a b : Int) : Prop :=
  a ∈ seriesTimestamps store ex sym tf ∧ b ∈ seriesTimestamps store ex sym tf ∧
    a < b ∧ ∀ t ∈ seriesTimestamps store ex sym tf, ¬(a < t ∧ t < b)

/-- A concrete 1-minute candle of the series `("e", "s", "1m")`, for the
concrete scenarios below. -/
def mkCandle (ts : Int) : Candle :=
  { exchange := "e", symbol := "s", timeframe := "1m", timestamp := ts,
    open_price := 1, high := 1, low := 1, close := 1, volume := 0 }

/-- A store holding candles only at minute 0 and minute 10 (spacing 1 minute). -/
def holeStore : Store := [mkCandle 0, mkCandle 600000]

/-- The candles of minutes 1 through 9, which plug the hole of `holeStore`. -/
def holeFiller : List Candle :=
  List.map mkCandle
    [60000, 120000, 180000, 240000, 300000, 360000, 420000, 480000, 540000]

/-- A source whose history is exhausted: every request returns an empty page. -/
def emptySrc : Source := fun _ _ => FetchResult.page []

/-- The single page returned over and over by `constSrc`. -/
def constPage : List Raw := [{ ts := 1000000, o := 1, h := 1, l := 1, c := 1, v := 1 }]

/-- A source that always returns the same page — same oldest timestamp every
time, simulating a source that has reached its true historical limit. -/
def constSrc : Source := fun _ _ => FetchResult.page constPage

/-- Every row of `s'` is a row of `s`, or else belongs to the given series
with its timestamp inside `[start_ts, end_ts]` — the only rows a range fetch
over that window is allowed to add. -/
def storeExtends (s s' : Store) (ex sym tf : String) (start_ts end_ts : Int) :
    Prop :=
  ∀ x ∈ s', x ∈ s ∨
    (x.exchange = ex ∧ x.symbol = sym ∧ x.timeframe = tf ∧
      start_ts ≤ x.timestamp ∧ x.timestamp ≤ end_ts)

theorem insert_or_ignore_length (store : Store) (c : Candle) :
    (insert_or_ignore store c).1.length =
      store.length + (if (insert_or_ignore store c).2 then 1 else 0) := by
  unfold insert_or_ignore
  split <;> simp

theorem insert_or_ignore_mem (store : Store) (c : Candle) (x : Candle)
    (hx : x ∈ (insert_or_ignore store c).1) : x ∈ store ∨ x = c := by
  unfold insert_or_ignore at hx
  split at hx
  · exact Or.inl hx
  · rcases List.mem_append.1 hx with h | h
    · exact Or.inl h
    · exact Or.inr (List.mem_singleton.1 h)

theorem insert_or_ignore_hasKey (store : Store) (c : Candle)
    (k : String × String × String × Int) (hk : hasKey store k = true) :
    hasKey (insert_or_ignore store c).1 k = true := by
  unfold insert_or_ignore
  split
  · exact hk
  · unfold hasKey at hk ⊢
    rcases List.any_eq_true.1 hk with ⟨r, hr, hrk⟩
    exact List.any_eq_true.2 ⟨r, List.mem_append_left _ hr, hrk⟩

theorem insert_or_ignore_self_hasKey (store : Store) (c : Candle) :
    hasKey (insert_or_ignore store c).1 c.key = true := by
  unfold insert_or_ignore
  split
  next h => exact h
  next h =>
    unfold hasKey
    exact List.any_eq_true.2 ⟨c, List.mem_append_right _ (List.mem_singleton.2 rfl), by simp⟩

theorem insert_or_ignore_of_hasKey (store : Store) (c : Candle)
    (h : hasKey store c.key = true) : insert_or_ignore store c = (store, false) := by
  unfold insert_or_ignore
  simp [h]

theorem insertFold_batch_spec (batch : List Candle) :
    ∀ (s : Store) (n : Nat),
      (batch.foldl insertFold (s, n)).1.length + n =
          s.length + (batch.foldl insertFold (s, n)).2 ∧
        (∀ x ∈ (batch.foldl insertFold (s, n)).1, x ∈ s ∨ x ∈ batch) := by
  induction batch with
  | nil => intro s n; simp
  | cons c rest ih =>
    intro s n
    simp only [List.foldl_cons]
    have hstep : insertFold (s, n) c =
        ((insert_or_ignore s c).1,
          n + (if (insert_or_ignore s c).2 then 1 else 0)) := rfl
    rw [hstep]
    obtain ⟨ih1, ih2⟩ :=
      ih (insert_or_ignore s c).1 (n + (if (insert_or_ignore s c).2 then 1 else 0))
    have hl := insert_or_ignore_length s c
    refine ⟨by omega, ?_⟩
    intro x hx
    rcases ih2 x hx with h | h
    · rcases insert_or_ignore_mem s c x h with h' | h'
      · exact Or.inl h'
      · exact Or.inr (h' ▸ List.mem_cons_self c rest)
    · exact Or.inr (List.mem_cons_of_mem c h)

theorem insertFold_batch_hasKey_mono (batch : List Candle) :
    ∀ (s : Store) (n : Nat) (k : String × String × String × Int),
      hasKey s k = true → hasKey (batch.foldl insertFold (s, n)).1 k = true := by
  induction batch with
  | nil => intro s n k hk; simpa using hk
  | cons c rest ih =>
    intro s n k hk
    simp only [List.foldl_cons]
    exact ih _ _ k (insert_or_ignore_hasKey s c k hk)

theorem insertFold_batch_hasKey_mem (batch : List Candle) :
    ∀ (s : Store) (n : Nat) (c : Candle), c ∈ batch →
      hasKey (batch.foldl insertFold (s, n)).1 c.key = true := by
  induction batch with
  | nil => intro s n c hc; cases hc
  | cons b rest ih =>
    intro s n c hc
    simp only [List.foldl_cons]
    rcases List.mem_cons.1 hc with h | h
    · subst h
      exact insertFold_batch_hasKey_mono rest _ _ _
        (insert_or_ignore_self_hasKey s c)
    · exact ih _ _ c h

theorem insertFold_batch_noop (batch : List Candle) :
    ∀ (s : Store) (n : Nat), (∀ c ∈ batch, hasKey s c.key = true) →
      batch.foldl insertFold (s, n) = (s, n) := by
  induction batch with
  | nil => intro s n _; rfl
  | cons c rest ih =>
    intro s n hall
    simp only [List.foldl_cons]
    have hc := hall c (List.mem_cons_self c rest)
    have : insertFold (s, n) c = (s, n) := by
      unfold insertFold
      rw [insert_or_ignore_of_hasKey s c hc]
      simp
    rw [this]
    exact ih s n (fun d hd => hall d (List.mem_cons_of_mem c hd))

theorem insert_or_ignore_keysNodup (store : Store) (c : Candle)
    (h : keysNodup store) : keysNodup (insert_or_ignore store c).1 := by
  unfold insert_or_ignore
  split
  · exact h
  next hk =>
    unfold keysNodup at h ⊢
    rw [List.map_append, List.map_singleton, List.nodup_append]
    refine ⟨h, List.nodup_singleton _, ?_⟩
    intro k hkmem hkc
    rcases List.mem_map.1 hkmem with ⟨r, hr, hrk⟩
    rcases List.mem_singleton.1 hkc with rfl
    have : hasKey store c.key = true := by
      unfold hasKey
      exact List.any_eq_true.2 ⟨r, hr, by simp [hrk]⟩
    simp [this] at hk

theorem insertFold_batch_keysNodup (batch : List Candle) :
    ∀ (s : Store) (n : Nat), keysNodup s →
      keysNodup (batch.foldl insertFold (s, n)).1 := by
  induction batch with
  | nil => intro s n h; simpa using h
  | cons c rest ih =>
    intro s n h
    simp only [List.foldl_cons]
    exact ih _ _ (insert_or_ignore_keysNodup s c h)

/-- C6: inserting the same candle batch twice via the ignore-mode batch upsert
yields `inserted_count = 0` on the second call and leaves the store content
unchanged; the uniqueness of `(exchange, symbol, timeframe, timestamp)` that
the `INSERT OR IGNORE` relies on is preserved by the insert. -/
theorem insert_ohlcv_batch_idempotent (store : Store) (batch : List Candle) :
    (insert_ohlcv_batch (insert_ohlcv_batch store batch).1 batch).2 = 0 ∧
      (insert_ohlcv_batch (insert_ohlcv_batch store batch).1 batch).1 =
        (insert_ohlcv_batch store batch).1 ∧
      (keysNodup store → keysNodup (insert_ohlcv_batch store batch).1) := by
  have hall : ∀ c ∈ batch,
      hasKey (insert_ohlcv_batch store batch).1 c.key = true :=
    fun c hc => insertFold_batch_hasKey_mem batch store 0 c hc
  have hno := insertFold_batch_noop batch (insert_ohlcv_batch store batch).1 0 hall
  refine ⟨?_, ?_, ?_⟩
  · show (batch.foldl insertFold ((insert_ohlcv_batch store batch).1, 0)).2 = 0
    rw [hno]
  · show (batch.foldl insertFold ((insert_ohlcv_batch store batch).1, 0)).1 =
      (insert_ohlcv_batch store batch).1
    rw [hno]
  · intro h
    exact insertFold_batch_keysNodup batch store 0 h

/-- C6 witness: the idempotence theorem applied to the concrete minute-candle
batch, with the uniqueness hypothesis discharged on the concrete store. -/
theorem insert_ohlcv_batch_idempotent_witness :
    (insert_ohlcv_batch (insert_ohlcv_batch holeStore holeFiller).1 holeFiller).2 = 0 ∧
      (insert_ohlcv_batch (insert_ohlcv_batch holeStore holeFiller).1 holeFiller).1 =
        (insert_ohlcv_batch holeStore holeFiller).1 ∧
      keysNodup (insert_ohlcv_batch holeStore holeFiller).1 :=
  ⟨(insert_ohlcv_batch_idempotent holeStore holeFiller).1,
   (insert_ohlcv_batch_idempotent holeStore holeFiller).2.1,
   (insert_ohlcv_batch_idempotent holeStore holeFiller).2.2
     (by unfold keysNodup holeStore mkCandle Candle.key; decide)⟩

/-- C8: `is_unfillable_gap` is an exact-bounds lookup — after
`mark_unfillable_gap memo ex sym tf gs ge` the same bounds test true, any
other not-previously-recorded bounds test false — and marking the same
interval twice leaves the memo table as after one marking. -/
theorem unfillable_memo_exact_and_idempotent (memo : List GapKey)
    (ex sym tf : String) (gs ge gs' ge' : Int) :
    is_unfillable_gap (mark_unfillable_gap memo ex sym tf gs ge) ex sym tf gs ge
        = true ∧
      ((gs', ge') ≠ (gs, ge) → (ex, sym, tf, gs', ge') ∉ memo →
        is_unfillable_gap (mark_unfillable_gap memo ex sym tf gs ge) ex sym tf gs' ge'
          = false) ∧
      mark_unfillable_gap (mark_unfillable_gap memo ex sym tf gs ge) ex sym tf gs ge
        = mark_unfillable_gap memo ex sym tf gs ge := by
  by_cases h : (ex, sym, tf, gs, ge) ∈ memo
  · have hm : mark_unfillable_gap memo ex sym tf gs ge = memo := by
      unfold mark_unfillable_gap; simp [h]
    rw [hm]
    refine ⟨by unfold is_unfillable_gap; simpa using h, ?_, hm⟩
    intro _ hnm
    unfold is_unfillable_gap
    simpa using hnm
  · have hm : mark_unfillable_gap memo ex sym tf gs ge =
        memo ++ [(ex, sym, tf, gs, ge)] := by
      unfold mark_unfillable_gap; simp [h]
    rw [hm]
    refine ⟨by unfold is_unfillable_gap; simp, ?_, ?_⟩
    · intro hne hnm
      unfold is_unfillable_gap
      simp only [decide_eq_false_iff_not, List.mem_append, List.mem_singleton]
      rintro (hmem | heq)
      · exact hnm hmem
      · apply hne
        simp only [Prod.mk.injEq] at heq
        simp [heq.2.2.2.1, heq.2.2.2.2]
    · unfold mark_unfillable_gap
      simp

/-- C8 witness: the concrete scenario of the spec — mark `(100, 200)`, then
`(100, 200)` is unfillable, `(100, 199)` is not, and a second marking changes
nothing. -/
theorem unfillable_memo_exact_and_idempotent_witness :
    is_unfillable_gap (mark_unfillable_gap [] "e" "s" "1m" 100 200) "e" "s" "1m" 100 200
        = true ∧
      is_unfillable_gap (mark_unfillable_gap [] "e" "s" "1m" 100 200) "e" "s" "1m" 100 199
        = false ∧
      mark_unfillable_gap (mark_unfillable_gap [] "e" "s" "1m" 100 200) "e" "s" "1m" 100 200
        = mark_unfillable_gap [] "e" "s" "1m" 100 200 :=
  ⟨(unfillable_memo_exact_and_idempotent [] "e" "s" "1m" 100 200 100 199).1,
   (unfillable_memo_exact_and_idempotent [] "e" "s" "1m" 100 200 100 199).2.1
     (by decide) (by decide),
   (unfillable_memo_exact_and_idempotent [] "e" "s" "1m" 100 200 100 199).2.2⟩

theorem is_unfillable_after_mark (memo : List GapKey) (ex sym tf : String)
    (gs ge : Int) :
    is_unfillable_gap (mark_unfillable_gap memo ex sym tf gs ge) ex sym tf gs ge
      = true := by
  unfold is_unfillable_gap mark_unfillable_gap
  split
  next h => simpa using h
  next h => simp

/-- C5: once `mark_unfillable_gap` has recorded an interval, the gap scan of
the repair phase — the gap detector's output filtered by the unfillable
memo, as `Backfiller.backfill` computes it — excludes that interval even
when `find_gaps` alone would report it. -/
theorem marked_gap_suppressed (store : Store) (memo : List GapKey)
    (ex sym tf : String) (tfms gs ge : Int)
    (_hrep : (gs, ge) ∈ find_gaps store ex sym tf tfms) :
    (gs, ge) ∉
      fillable_gaps store (mark_unfillable_gap memo ex sym tf gs ge) ex sym tf tfms := by
  intro hmem
  unfold fillable_gaps at hmem
  have hflt := (List.mem_filter.1 hmem).2
  rw [is_unfillable_after_mark memo ex sym tf gs ge] at hflt
  simp at hflt

/-- C5 witness: the store with candles only at minutes 0 and 10 does report
the gap `(0, 600000)`, and after marking it unfillable the repair scan
excludes it. -/
theorem marked_gap_suppressed_witness :
    (0, 600000) ∈ find_gaps holeStore "e" "s" "1m" 60000 ∧
      (0, 600000) ∉
        fillable_gaps holeStore (mark_unfillable_gap [] "e" "s" "1m" 0 600000)
          "e" "s" "1m" 60000 :=
  ⟨by decide,
   marked_gap_suppressed holeStore [] "e" "s" "1m" 60000 0 600000 (by decide)⟩

theorem sorted_nodup_pairwise_lt (l : List Int) (hs : List.Sorted (· ≤ ·) l)
    (hn : l.Nodup) : List.Pairwise (· < ·) l := by
  have hand := List.Pairwise.and hs hn
  exact hand.imp (fun h => lt_of_le_of_ne h.1 h.2)

theorem zip_tail_adjacent (l : List Int) (hl : List.Pairwise (· < ·) l)
    (a b : Int) :
    (a, b) ∈ l.zip l.tail ↔
      a ∈ l ∧ b ∈ l ∧ a < b ∧ ∀ t ∈ l, ¬(a < t ∧ t < b) := by
  induction l with
  | nil => simp
  | cons x xs ih =>
    have hx : ∀ t ∈ xs, x < t := (List.pairwise_cons.1 hl).1
    have hxs : List.Pairwise (· < ·) xs := (List.pairwise_cons.1 hl).2
    cases xs with
    | nil =>
      simp only [List.tail_cons, List.zip_nil_right, List.not_mem_nil,
        List.mem_singleton, false_iff]
      rintro ⟨rfl, rfl, hab, -⟩
      exact lt_irrefl _ hab
    | cons y ys =>
      have hzip : (x :: y :: ys).zip (x :: y :: ys).tail =
          (x, y) :: (y :: ys).zip (y :: ys).tail := rfl
      rw [hzip]
      constructor
      · intro hmem
        rcases List.mem_cons.1 hmem with heq | hmem'
        · injection heq with h1 h2
          subst h1
          subst h2
          have hxy : a < b := hx b (List.mem_cons_self b ys)
          refine ⟨List.mem_cons_self a _, List.mem_cons_of_mem a (List.mem_cons_self b ys),
            hxy, ?_⟩
          intro t ht ⟨hat, htb⟩
          rcases List.mem_cons.1 ht with rfl | ht'
          · exact lt_irrefl t hat
          · rcases List.mem_cons.1 ht' with rfl | ht''
            · exact lt_irrefl t htb
            · have := (List.pairwise_cons.1 hxs).1 t ht''
              omega
        · obtain ⟨ha, hb, hab, hbet⟩ := (ih hxs).1 hmem'
          refine ⟨List.mem_cons_of_mem x ha, List.mem_cons_of_mem x hb, hab, ?_⟩
          intro t ht ⟨hat, htb⟩
          rcases List.mem_cons.1 ht with rfl | ht'
          · have := hx a ha
            omega
          · exact hbet t ht' ⟨hat, htb⟩
      · rintro ⟨ha, hb, hab, hbet⟩
        rcases List.mem_cons.1 ha with rfl | ha'
        · have hb' : b ∈ y :: ys := by
            rcases List.mem_cons.1 hb with rfl | hb'
            · omega
            · exact hb'
          rcases List.mem_cons.1 hb' with rfl | hb'' 
          · exact List.mem_cons_self _ _
          · exfalso
            have h1 : a < y := hx y (List.mem_cons_self y ys)
            have h2 : y < b := (List.pairwise_cons.1 hxs).1 b hb''
            exact hbet y (List.mem_cons_of_mem a (List.mem_cons_self y ys)) ⟨h1, h2⟩
        · have hb' : b ∈ y :: ys := by
            rcases List.mem_cons.1 hb with rfl | hb''
            · have := hx a ha'
              omega
            · exact hb''
          apply List.mem_cons_of_mem
          exact (ih hxs).2 ⟨ha', hb', hab,
            fun t ht hc => hbet t (List.mem_cons_of_mem x ht) hc⟩

theorem gapPairs_mem (store : Store) (ex sym tf : String) (tfms : Int)
    (hnd : (seriesTimestamps store ex sym tf).Nodup) (a b : Int) :
    (a, b) ∈ gapPairs store ex sym tf tfms ↔
      consecutiveStored store ex sym tf a b ∧ 2 * tfms < b - a := by
  unfold gapPairs
  have hperm : List.Perm
      (List.insertionSort (· ≤ ·) (seriesTimestamps store ex sym tf))
      (seriesTimestamps store ex sym tf) := List.perm_insertionSort _ _
  have hsorted : List.Sorted (· ≤ ·)
      (List.insertionSort (· ≤ ·) (seriesTimestamps store ex sym tf)) :=
    List.sorted_insertionSort _ _
  have hnd' : (List.insertionSort (· ≤ ·) (seriesTimestamps store ex sym tf)).Nodup :=
    hperm.nodup_iff.2 hnd
  have hlt := sorted_nodup_pairwise_lt _ hsorted hnd'
  rw [List.mem_filter, zip_tail_adjacent _ hlt a b]
  unfold consecutiveStored
  constructor
  · rintro ⟨⟨ha, hb, hab, hbet⟩, hd⟩
    refine ⟨⟨hperm.mem_iff.1 ha, hperm.mem_iff.1 hb, hab,
      fun t ht => hbet t (hperm.mem_iff.2 ht)⟩, by simpa using hd⟩
  · rintro ⟨⟨ha, hb, hab, hbet⟩, hd⟩
    refine ⟨⟨hperm.mem_iff.2 ha, hperm.mem_iff.2 hb, hab,
      fun t ht => hbet t (hperm.mem_iff.1 ht)⟩, by simpa using hd⟩

theorem find_gaps_eq_gapPairs (store : Store) (ex sym tf : String) (tfms : Int)
    (hlen : (gapPairs store ex sym tf tfms).length ≤ 100) :
    find_gaps store ex sym tf tfms = gapPairs store ex sym tf tfms := by
  unfold find_gaps
  exact List.take_of_length_le hlen

/-- C4: when the series' stored timestamps are duplicate-free (the store's
uniqueness invariant) and the result is below the 100-row bound,
`find_gaps` returns exactly the pairs of consecutively stored timestamps
whose difference exceeds `2 × spacing`; concretely, a store holding candles
only at minute 0 and minute 10 with 1-minute spacing yields exactly the gap
`(0, 600000)`, and after inserting the candles of minutes 1-9 it yields
none. -/
theorem find_gaps_characterization (store : Store) (ex sym tf : String)
    (tfms a b : Int) (hnd : (seriesTimestamps store ex sym tf).Nodup)
    (hlen : (gapPairs store ex sym tf tfms).length ≤ 100) :
    ((a, b) ∈ find_gaps store ex sym tf tfms ↔
        consecutiveStored store ex sym tf a b ∧ 2 * tfms < b - a) ∧
      find_gaps holeStore "e" "s" "1m" 60000 = [(0, 600000)] ∧
      find_gaps (insert_ohlcv_batch holeStore holeFiller).1 "e" "s" "1m" 60000 = [] := by
  refine ⟨?_, by decide, by decide⟩
  rw [find_gaps_eq_gapPairs store ex sym tf tfms hlen]
  exact gapPairs_mem store ex sym tf tfms hnd a b

/-- C4 witness: the characterization applied to the concrete two-candle store
at the gap `(0, 600000)`, hypotheses discharged by evaluation. -/
theorem find_gaps_characterization_witness :
    ((0, 600000) ∈ find_gaps holeStore "e" "s" "1m" 60000 ↔
        consecutiveStored holeStore "e" "s" "1m" 0 600000 ∧
          (2 : Int) * 60000 < 600000 - 0) ∧
      find_gaps holeStore "e" "s" "1m" 60000 = [(0, 600000)] ∧
      find_gaps (insert_ohlcv_batch holeStore holeFiller).1 "e" "s" "1m" 60000 = [] :=
  find_gaps_characterization holeStore "e" "s" "1m" 60000 0 600000
    (by decide) (by decide)

theorem insertPhase_preserves (ex sym tf : String) (start_ts end_ts : Int)
    (ohlcv : List Raw) (st : FetchState) :
    (insertPhase ex sym tf start_ts end_ts ohlcv st).1.iterations = st.iterations ∧
      (insertPhase ex sym tf start_ts end_ts ohlcv st).1.since = st.since ∧
      (insertPhase ex sym tf start_ts end_ts ohlcv st).1.last_oldest_ts
        = st.last_oldest_ts ∧
      (insertPhase ex sym tf start_ts end_ts ohlcv st).1.requests = st.requests ∧
      (insertPhase ex sym tf start_ts end_ts ohlcv st).1.consecutive_empty
        = st.consecutive_empty := by
  unfold insertPhase
  dsimp only
  repeat' split
  all_goals exact ⟨rfl, rfl, rfl, rfl, rfl⟩

theorem fetchStep_iterations (src : Source) (ex sym tf : String)
    (tfms start_ts end_ts : Int) (st : FetchState) :
    (fetchStep src ex sym tf tfms start_ts end_ts st).1.iterations
      = st.iterations + 1 := by
  unfold fetchStep
  dsimp only
  repeat' split <;> try rfl
  all_goals
    exact (insertPhase_preserves ex sym tf start_ts end_ts _ _).1

theorem fetchLoop_iterations_le (src : Source) (ex sym tf : String)
    (tfms start_ts end_ts : Int) :
    ∀ (fuel : Nat) (st : FetchState),
      (fetchLoop src ex sym tf tfms start_ts end_ts fuel st).iterations ≤
        st.iterations + fuel := by
  intro fuel
  induction fuel with
  | zero => intro st; simp [fetchLoop]
  | succ n ih =>
    intro st
    unfold fetchLoop
    dsimp only
    split
    next h =>
      calc (fetchLoop src ex sym tf tfms start_ts end_ts n
              (fetchStep src ex sym tf tfms start_ts end_ts st).1).iterations
          ≤ (fetchStep src ex sym tf tfms start_ts end_ts st).1.iterations + n :=
            ih _
        _ = st.iterations + 1 + n := by
            rw [fetchStep_iterations]
        _ ≤ st.iterations + (n + 1) := by omega
    next h =>
      rw [fetchStep_iterations]
      omega

theorem fetchStep_halt_on_dup (src : Source) (ex sym tf : String)
    (tfms start_ts end_ts : Int) (c0 : Raw) (rest : List Raw)
    (hsrc : ∀ n s, src n s = FetchResult.page (c0 :: rest)) (st : FetchState)
    (hlast : st.last_oldest_ts = some c0.ts) :
    (fetchStep src ex sym tf tfms start_ts end_ts st).2 = false := by
  unfold fetchStep
  dsimp only
  split
  · rfl
  · rw [hsrc]
    dsimp only
    rw [hlast]
    simp [dupSeen]

theorem fetchStep_halt_or_sets (src : Source) (ex sym tf : String)
    (tfms start_ts end_ts : Int) (c0 : Raw) (rest : List Raw)
    (hsrc : ∀ n s, src n s = FetchResult.page (c0 :: rest)) (st : FetchState) :
    (fetchStep src ex sym tf tfms start_ts end_ts st).2 = false ∨
      (fetchStep src ex sym tf tfms start_ts end_ts st).1.last_oldest_ts
        = some c0.ts := by
  unfold fetchStep
  dsimp only
  split
  · exact Or.inl rfl
  · rw [hsrc]
    dsimp only
    split
    · exact Or.inl rfl
    · refine Or.inr ?_
      split
      · exact (insertPhase_preserves ex sym tf start_ts end_ts _ _).2.2.1
      · exact (insertPhase_preserves ex sym tf start_ts end_ts _ _).2.2.1

theorem fetchLoop_halts_after_dup (src : Source) (ex sym tf : String)
    (tfms start_ts end_ts : Int) (c0 : Raw) (rest : List Raw)
    (hsrc : ∀ n s, src n s = FetchResult.page (c0 :: rest)) (fuel : Nat)
    (st : FetchState) (hlast : st.last_oldest_ts = some c0.ts) :
    fetchLoop src ex sym tf tfms start_ts end_ts (fuel + 1) st
      = (fetchStep src ex sym tf tfms start_ts end_ts st).1 := by
  unfold fetchLoop
  dsimp only
  rw [fetchStep_halt_on_dup src ex sym tf tfms start_ts end_ts c0 rest hsrc st hlast]
  simp

theorem fetchLoop_const_page_bound (src : Source) (ex sym tf : String)
    (tfms start_ts end_ts : Int) (c0 : Raw) (rest : List Raw)
    (hsrc : ∀ n s, src n s = FetchResult.page (c0 :: rest)) (fuel : Nat)
    (st : FetchState) :
    (fetchLoop src ex sym tf tfms start_ts end_ts (fuel + 2) st).iterations ≤
      st.iterations + 2 := by
  have hstep : fetchLoop src ex sym tf tfms start_ts end_ts (fuel + 2) st =
      (let r := fetchStep src ex sym tf tfms start_ts end_ts st
       if r.2 then fetchLoop src ex sym tf tfms start_ts end_ts (fuel + 1) r.1
       else r.1) := rfl
  rw [hstep]
  dsimp only
  split
  next hcont =>
    rcases fetchStep_halt_or_sets src ex sym tf tfms start_ts end_ts c0 rest hsrc st
      with hf | hl
    · rw [hcont] at hf
      cases hf
    · rw [fetchLoop_halts_after_dup src ex sym tf tfms start_ts end_ts c0 rest hsrc
        fuel _ hl]
      rw [fetchStep_iterations, fetchStep_iterations]
  next _ =>
    rw [fetchStep_iterations]
    omega

/-- C2: every range fetch terminates with its loop-pass count bounded by the
hard cap `max_iterations = 10000`; and against a source that always returns
the same page — so the oldest timestamp of each page is never strictly older
than the previous page's — the convergence check stops the fetch within 2
iterations rather than running to the cap. -/
theorem fetch_range_terminates (src : Source) (store : Store) (ex sym tf : String)
    (tfms start_ts end_ts : Int) :
    (fetch_range src store ex sym tf tfms start_ts end_ts).iterations
        ≤ max_iterations ∧
      ∀ (c0 : Raw) (rest : List Raw),
        (∀ n s, src n s = FetchResult.page (c0 :: rest)) →
        (fetch_range src store ex sym tf tfms start_ts end_ts).iterations ≤ 2 := by
  constructor
  · have h := fetchLoop_iterations_le src ex sym tf tfms start_ts end_ts
      max_iterations
      { store := store, total_inserted := 0, consecutive_empty := 0,
        consecutive_no_inserts := 0, iterations := 0, last_oldest_ts := none,
        since := end_ts - 500 * tfms, requests := [] }
    unfold fetch_range
    simpa using h
  · intro c0 rest hsrc
    have h := fetchLoop_const_page_bound src ex sym tf tfms start_ts end_ts
      c0 rest hsrc 9998
      { store := store, total_inserted := 0, consecutive_empty := 0,
        consecutive_no_inserts := 0, iterations := 0, last_oldest_ts := none,
        since := end_ts - 500 * tfms, requests := [] }
    unfold fetch_range
    rw [show max_iterations = 9998 + 2 from rfl]
    simpa using h

/-- C2 witness: the bound applied to the constant-page source. -/
theorem fetch_range_terminates_witness :
    (fetch_range constSrc [] "e" "s" "1m" 60000 0 900000000).iterations ≤ 2 :=
  (fetch_range_terminates constSrc [] "e" "s" "1m" 60000 0 900000000).2
    { ts := 1000000, o := 1, h := 1, l := 1, c := 1, v := 1 } []
    (fun _ _ => rfl)

theorem pageBatch_mem (ex sym tf : String) (start_ts end_ts : Int)
    (ohlcv : List Raw) (x : Candle)
    (hx : x ∈ pageBatch ex sym tf start_ts end_ts ohlcv) :
    x.exchange = ex ∧ x.symbol = sym ∧ x.timeframe = tf ∧
      start_ts ≤ x.timestamp ∧ x.timestamp ≤ end_ts := by
  unfold pageBatch at hx
  rcases List.mem_map.1 hx with ⟨r, hr, rfl⟩
  have hrf := (List.mem_filter.1 hr).2
  rw [decide_eq_true_eq] at hrf
  exact ⟨rfl, rfl, rfl, hrf.1, hrf.2⟩

theorem insertPhase_store_inv (ex sym tf : String) (start_ts end_ts : Int)
    (ohlcv : List Raw) (s0 : Store) (st : FetchState)
    (h1 : storeExtends s0 st.store ex sym tf start_ts end_ts)
    (h2 : st.store.length = s0.length + st.total_inserted) :
    storeExtends s0 (insertPhase ex sym tf start_ts end_ts ohlcv st).1.store
        ex sym tf start_ts end_ts ∧
      (insertPhase ex sym tf start_ts end_ts ohlcv st).1.store.length =
        s0.length + (insertPhase ex sym tf start_ts end_ts ohlcv st).1.total_inserted := by
  have hspec := insertFold_batch_spec (pageBatch ex sym tf start_ts end_ts ohlcv)
    st.store 0
  have hext : storeExtends s0
      (insert_ohlcv_batch st.store (pageBatch ex sym tf start_ts end_ts ohlcv)).1
      ex sym tf start_ts end_ts := by
    intro x hx
    rcases hspec.2 x hx with h | h
    · exact h1 x h
    · exact Or.inr (pageBatch_mem ex sym tf start_ts end_ts ohlcv x h)
  have hlen : (insert_ohlcv_batch st.store
        (pageBatch ex sym tf start_ts end_ts ohlcv)).1.length =
      s0.length + (st.total_inserted +
        (insert_ohlcv_batch st.store (pageBatch ex sym tf start_ts end_ts ohlcv)).2) := by
    have hfold : (insert_ohlcv_batch st.store
          (pageBatch ex sym tf start_ts end_ts ohlcv)).1.length + 0 =
        st.store.length +
          (insert_ohlcv_batch st.store (pageBatch ex sym tf start_ts end_ts ohlcv)).2 :=
      hspec.1
    omega
  unfold insertPhase
  dsimp only
  repeat' split
  all_goals first
    | exact ⟨h1, h2⟩
    | exact ⟨hext, hlen⟩

theorem fetchStep_store_inv (src : Source) (ex sym tf : String)
    (tfms start_ts end_ts : Int) (s0 : Store) (st : FetchState)
    (h1 : storeExtends s0 st.store ex sym tf start_ts end_ts)
    (h2 : st.store.length = s0.length + st.total_inserted) :
    storeExtends s0 (fetchStep src ex sym tf tfms start_ts end_ts st).1.store
        ex sym tf start_ts end_ts ∧
      (fetchStep src ex sym tf tfms start_ts end_ts st).1.store.length =
        s0.length + (fetchStep src ex sym tf tfms start_ts end_ts st).1.total_inserted := by
  unfold fetchStep
  dsimp only
  repeat' split
  all_goals first
    | exact ⟨h1, h2⟩
    | exact insertPhase_store_inv ex sym tf start_ts end_ts _ s0 _ h1 h2

theorem fetchLoop_store_inv (src : Source) (ex sym tf : String)
    (tfms start_ts end_ts : Int) (s0 : Store) :
    ∀ (fuel : Nat) (st : FetchState),
      storeExtends s0 st.store ex sym tf start_ts end_ts →
      st.store.length = s0.length + st.total_inserted →
      storeExtends s0 (fetchLoop src ex sym tf tfms start_ts end_ts fuel st).store
          ex sym tf start_ts end_ts ∧
        (fetchLoop src ex sym tf tfms start_ts end_ts fuel st).store.length =
          s0.length +
            (fetchLoop src ex sym tf tfms start_ts end_ts fuel st).total_inserted := by
  intro fuel
  induction fuel with
  | zero => intro st h1 h2; exact ⟨h1, h2⟩
  | succ n ih =>
    intro st h1 h2
    have hstep := fetchStep_store_inv src ex sym tf tfms start_ts end_ts s0 st h1 h2
    unfold fetchLoop
    dsimp only
    split
    · exact ih _ hstep.1 hstep.2
    · exact hstep

/-- C3: a range fetch never writes a candle outside `[start_ts, end_ts]` —
every row of the resulting store is either a pre-existing row or a row of
the fetched series whose timestamp lies within the requested window — and
the returned count equals the number of rows actually added to the store,
duplicates ignored. -/
theorem fetch_range_window_bounds (src : Source) (store : Store)
    (ex sym tf : String) (tfms start_ts end_ts : Int) :
    storeExtends store (fetch_range src store ex sym tf tfms start_ts end_ts).store
        ex sym tf start_ts end_ts ∧
      (fetch_range src store ex sym tf tfms start_ts end_ts).store.length =
        store.length +
          (fetch_range src store ex sym tf tfms start_ts end_ts).total_inserted := by
  unfold fetch_range
  exact fetchLoop_store_inv src ex sym tf tfms start_ts end_ts store max_iterations
    _ (fun x hx => Or.inl hx) rfl

/-- C3 witness: the window bounds at a concrete fetch against the
constant-page source. -/
theorem fetch_range_window_bounds_witness :
    storeExtends ([] : Store)
        (fetch_range constSrc [] "e" "s" "1m" 60000 0 900000000).store
        "e" "s" "1m" 0 900000000 ∧
      (fetch_range constSrc [] "e" "s" "1m" 60000 0 900000000).store.length =
        ([] : Store).length +
          (fetch_range constSrc [] "e" "s" "1m" 60000 0 900000000).total_inserted :=
  fetch_range_window_bounds constSrc [] "e" "s" "1m" 60000 0 900000000

/-- C7 counterexample: against an all-empty source with spacing
`tf_ms = 1`, window `[0, 10000]`, the three requests go to cursors
`9500, 8500, 7500` — each empty page steps the cursor back by
`1000 × tf_ms = 1000`, not by one spacing unit (which would give
`9500, 9499, 9498`) — and the fetch stops at the third consecutive empty
page. -/
theorem empty_page_step_counterexample :
    (fetch_range emptySrc [] "e" "s" "1m" 1 0 10000).requests = [9500, 8500, 7500] ∧
      (fetch_range emptySrc [] "e" "s" "1m" 1 0 10000).requests ≠ [9500, 9499, 9498] ∧
      (fetch_range emptySrc [] "e" "s" "1m" 1 0 10000).iterations = 3 := by
  refine ⟨by decide, by decide, by decide⟩

/-- C7 (amended): on an empty page the fetcher increments the empty-page
counter; if that makes 3 consecutive empty pages it stops, otherwise it
steps the cursor backward by `1000 × tf_ms` — one page-limit's worth, not
one spacing unit — and retries; and any non-empty page resets the counter
to zero. -/
theorem empty_page_policy (src : Source) (ex sym tf : String)
    (tfms start_ts end_ts : Int) (st : FetchState)
    (hs : start_ts < st.since) :
    (src st.requests.length st.since = FetchResult.page [] →
        st.consecutive_empty + 1 < 3 →
        fetchStep src ex sym tf tfms start_ts end_ts st =
          ({ st with
              iterations := st.iterations + 1,
              requests := st.requests ++ [st.since],
              consecutive_empty := st.consecutive_empty + 1,
              since := st.since - 1000 * tfms }, true)) ∧
      (src st.requests.length st.since = FetchResult.page [] →
        3 ≤ st.consecutive_empty + 1 →
        fetchStep src ex sym tf tfms start_ts end_ts st =
          ({ st with
              iterations := st.iterations + 1,
              requests := st.requests ++ [st.since],
              consecutive_empty := st.consecutive_empty + 1 }, false)) ∧
      ∀ (c0 : Raw) (rest : List Raw),
        src st.requests.length st.since = FetchResult.page (c0 :: rest) →
        (fetchStep src ex sym tf tfms start_ts end_ts st).1.consecutive_empty = 0 := by
  refine ⟨?_, ?_, ?_⟩
  · intro hempty hcc
    unfold fetchStep
    dsimp only
    rw [if_neg (not_le.mpr hs), hempty]
    dsimp only
    rw [if_neg (by omega : ¬(3 ≤ st.consecutive_empty + 1))]
  · intro hempty hcc
    unfold fetchStep
    dsimp only
    rw [if_neg (not_le.mpr hs), hempty]
    dsimp only
    rw [if_pos hcc]
  · intro c0 rest hpage
    unfold fetchStep
    dsimp only
    rw [if_neg (not_le.mpr hs), hpage]
    dsimp only
    split
    · rfl
    · split
      · exact (insertPhase_preserves ex sym tf start_ts end_ts _ _).2.2.2.2
      · exact (insertPhase_preserves ex sym tf start_ts end_ts _ _).2.2.2.2

/-- C7 witness: the amended policy at the concrete first step of the
all-empty-source run — the cursor moves from `9500` to `8500`. -/
theorem empty_page_policy_witness :
    fetchStep emptySrc "e" "s" "1m" 1 0 10000
        { store := [], total_inserted := 0, consecutive_empty := 0,
          consecutive_no_inserts := 0, iterations := 0, last_oldest_ts := none,
          since := 9500, requests := [] } =
      ({ store := [], total_inserted := 0, consecutive_empty := 1,
         consecutive_no_inserts := 0, iterations := 1, last_oldest_ts := none,
         since := 8500, requests := [9500] }, true) :=
  (empty_page_policy emptySrc "e" "s" "1m" 1 0 10000
      { store := [], total_inserted := 0, consecutive_empty := 0,
        consecutive_no_inserts := 0, iterations := 0, last_oldest_ts := none,
        since := 9500, requests := [] } (by decide)).1 rfl (by decide)

theorem fetchStep_at_start (src : Source) (ex sym tf : String)
    (tfms start_ts end_ts : Int) (st : FetchState) (h : st.since ≤ start_ts) :
    fetchStep src ex sym tf tfms start_ts end_ts st =
      ({ st with iterations := st.iterations + 1 }, false) := by
  unfold fetchStep
  dsimp only
  rw [if_pos h]

theorem fetch_range_narrow (src : Source) (store : Store) (ex sym tf : String)
    (tfms start_ts end_ts : Int) (h : end_ts - 500 * tfms ≤ start_ts) :
    (fetch_range src store ex sym tf tfms start_ts end_ts).total_inserted = 0 ∧
      (fetch_range src store ex sym tf tfms start_ts end_ts).requests = [] ∧
      (fetch_range src store ex sym tf tfms start_ts end_ts).store = store := by
  unfold fetch_range
  rw [show max_iterations = 9999 + 1 from rfl]
  unfold fetchLoop
  dsimp only
  rw [fetchStep_at_start src ex sym tf tfms start_ts end_ts _ h]
  exact ⟨rfl, rfl, rfl⟩

theorem mark_unfillable_gap_self (memo : List GapKey) (ex sym tf : String)
    (gs ge : Int) :
    (ex, sym, tf, gs, ge) ∈ mark_unfillable_gap memo ex sym tf gs ge := by
  unfold mark_unfillable_gap
  split
  next h => exact h
  next _ => exact List.mem_append_right _ (List.mem_singleton.2 rfl)

theorem mark_unfillable_gap_mono (memo : List GapKey) (ex sym tf : String)
    (gs ge : Int) (rec : GapKey) (h : rec ∈ memo) :
    rec ∈ mark_unfillable_gap memo ex sym tf gs ge := by
  unfold mark_unfillable_gap
  split
  · exact h
  · exact List.mem_append_left _ h

theorem repair_gaps_memo_mono (src : Source) (ex sym tf : String) (tfms : Int) :
    ∀ (gaps : List (Int × Int)) (rs : RepairState) (rec : GapKey),
      rec ∈ rs.memo → rec ∈ (repair_gaps src ex sym tf tfms gaps rs).memo := by
  intro gaps
  induction gaps with
  | nil => intro rs rec h; exact h
  | cons g rest ih =>
    intro rs rec h
    rcases g with ⟨gs, ge⟩
    unfold repair_gaps
    dsimp only
    split
    · exact ih _ rec (mark_unfillable_gap_mono _ ex sym tf gs ge rec h)
    · exact ih _ rec h

theorem repair_gaps_narrow_marked (src : Source) (ex sym tf : String) (tfms : Int) :
    ∀ (gaps : List (Int × Int)) (rs : RepairState) (gs ge : Int),
      (gs, ge) ∈ gaps → ge - 500 * tfms ≤ gs →
      is_unfillable_gap (repair_gaps src ex sym tf tfms gaps rs).memo ex sym tf gs ge
        = true := by
  intro gaps
  induction gaps with
  | nil => intro rs gs ge h _; cases h
  | cons g rest ih =>
    intro rs gs ge hmem hnarrow
    rcases g with ⟨gs', ge'⟩
    rcases List.mem_cons.1 hmem with heq | hmem'
    · injection heq with h1 h2
      subst h1
      subst h2
      unfold repair_gaps
      dsimp only
      rw [if_pos (fetch_range_narrow src rs.store ex sym tf tfms gs ge hnarrow).1]
      unfold is_unfillable_gap
      rw [decide_eq_true_eq]
      exact repair_gaps_memo_mono src ex sym tf tfms rest _ _
        (mark_unfillable_gap_self _ ex sym tf gs ge)
    · unfold repair_gaps
      dsimp only
      split
      · exact ih _ gs ge hmem' hnarrow
      · exact ih _ gs ge hmem' hnarrow

/-- C10: a range fetch whose window satisfies
`end_ts - 500 * tf_ms ≤ start_ts` returns 0 without issuing any request and
leaves the store untouched — the initial cursor `end_ts - 500 * tf_ms`
is already at or below `start_ts`, so the loop exits on its first pass —
and consequently the gap-repair phase of `backfill` marks every such narrow
fillable gap unfillable, whatever data the source has. -/
theorem narrow_window_zero_and_marked (src : Source) (store₀ : Store)
    (memo₀ : List GapKey) (ex sym tf : String) (tfms start_ts end_ts : Int)
    (days : Option Nat) (now gs ge : Int) :
    (end_ts - 500 * tfms ≤ start_ts →
        (fetch_range src store₀ ex sym tf tfms start_ts end_ts).total_inserted = 0 ∧
          (fetch_range src store₀ ex sym tf tfms start_ts end_ts).requests = [] ∧
          (fetch_range src store₀ ex sym tf tfms start_ts end_ts).store = store₀) ∧
      (TIMEFRAME_MS tf = some tfms →
        0 < get_data_count store₀ ex sym tf →
        (gs, ge) ∈ fillable_gaps
          (fetch_range src store₀ ex sym tf tfms
            (phase1_target_start (get_earliest_timestamp store₀ ex sym tf) tfms days now)
            now).store
          memo₀ ex sym tf tfms →
        ge - 500 * tfms ≤ gs →
        is_unfillable_gap (backfill src store₀ memo₀ ex sym tf days now).memo
          ex sym tf gs ge = true) := by
  constructor
  · intro h
    exact fetch_range_narrow src store₀ ex sym tf tfms start_ts end_ts h
  · intro htf hcount hgap hnarrow
    unfold backfill
    rw [htf]
    dsimp only
    rw [if_pos hcount]
    dsimp only
    exact repair_gaps_narrow_marked src ex sym tf tfms _ _ gs ge hgap hnarrow

/-- C10 witness: the claim at the concrete hole store — the gap
`(0, 600000)` is narrower than 500 spacing units, the fetch over it issues
no request and returns 0, and a backfill run marks it unfillable. -/
theorem narrow_window_zero_and_marked_witness :
    ((fetch_range emptySrc holeStore "e" "s" "1m" 60000 0 600000).total_inserted = 0 ∧
        (fetch_range emptySrc holeStore "e" "s" "1m" 60000 0 600000).requests = [] ∧
        (fetch_range emptySrc holeStore "e" "s" "1m" 60000 0 600000).store = holeStore) ∧
      is_unfillable_gap (backfill emptySrc holeStore [] "e" "s" "1m" none 3000000).memo
        "e" "s" "1m" 0 600000 = true :=
  ⟨(narrow_window_zero_and_marked emptySrc holeStore [] "e" "s" "1m" 60000 0 600000
      none 3000000 0 600000).1 (by decide),
   (narrow_window_zero_and_marked emptySrc holeStore [] "e" "s" "1m" 60000 0 600000
      none 3000000 0 600000).2 rfl (by decide) (by decide) (by decide)⟩

theorem repair_gaps_windows (src : Source) (ex sym tf : String) (tfms : Int) :
    ∀ (gaps : List (Int × Int)) (rs : RepairState),
      (repair_gaps src ex sym tf tfms gaps rs).windows = rs.windows ++ gaps := by
  intro gaps
  induction gaps with
  | nil => intro rs; simp [repair_gaps]
  | cons g rest ih =>
    intro rs
    rcases g with ⟨gs, ge⟩
    unfold repair_gaps
    dsimp only
    split
    · rw [ih]
      simp
    · rw [ih]
      simp

/-- C1 counterexample: a store holding one candle of the series at timestamp
2000000 (so latest = earliest = 2000000), run at now = 3000000 with no days
horizon.  The claimed three phases would start with a forward fetch
`[latest + 1, now] = [2000001, 3000000]` and end with a backward fetch
toward the 2017 origin; the code issues exactly one fetch, over
`(earliest - 10 × spacing, now) = (1400000, 3000000)` — no window starts at
`latest + 1` and there is no backward phase. -/
theorem backfill_three_phase_counterexample :
    (backfill emptySrc [mkCandle 2000000] [] "e" "s" "1m" none 3000000).windows
        = [(1400000, 3000000)] ∧
      get_latest_timestamp [mkCandle 2000000] "e" "s" "1m" = some 2000000 ∧
      ¬(2000000 + 1, 3000000) ∈
        (backfill emptySrc [mkCandle 2000000] [] "e" "s" "1m" none 3000000).windows := by
  refine ⟨by decide, by decide, by decide⟩

/-- C1 (corrected): `backfill` runs two ordered phases, not three.  Phase 1
is a single backward fetch over `[target_start, now]`, where `target_start`
is `max(now - days, earliest)` under a truthy `days` horizon,
`earliest - 10 × spacing` when the series has data, and the 2017 origin when
it has none; phase 2 — run only when the series already had rows — fetches
exactly the memo-filtered gaps of the post-phase-1 store, in order.  No
window `[latest + 1, now]` is fetched and there is no separate backward
phase. -/
theorem backfill_two_phases (src : Source) (store₀ : Store) (memo₀ : List GapKey)
    (ex sym tf : String) (tfms : Int) (days : Option Nat) (now : Int)
    (htf : TIMEFRAME_MS tf = some tfms) :
    (backfill src store₀ memo₀ ex sym tf days now).windows =
      (phase1_target_start (get_earliest_timestamp store₀ ex sym tf) tfms days now,
          now) ::
        (if 0 < get_data_count store₀ ex sym tf then
          fillable_gaps
            (fetch_range src store₀ ex sym tf tfms
              (phase1_target_start (get_earliest_timestamp store₀ ex sym tf) tfms
                days now)
              now).store
            memo₀ ex sym tf tfms
        else []) := by
  unfold backfill
  rw [htf]
  dsimp only
  split
  next h =>
    dsimp only
    rw [repair_gaps_windows src ex sym tf tfms]
    simp
  next h =>
    rfl

/-- C1 witness: the two-phase window equation at the concrete one-candle
store. -/
theorem backfill_two_phases_witness :
    (backfill emptySrc [mkCandle 2000000] [] "e" "s" "1m" none 3000000).windows =
      (phase1_target_start
          (get_earliest_timestamp [mkCandle 2000000] "e" "s" "1m") 60000 none 3000000,
        3000000) ::
        (if 0 < get_data_count [mkCandle 2000000] "e" "s" "1m" then
          fillable_gaps
            (fetch_range emptySrc [mkCandle 2000000] "e" "s" "1m" 60000
              (phase1_target_start
                (get_earliest_timestamp [mkCandle 2000000] "e" "s" "1m") 60000 none
                3000000)
              3000000).store
            [] "e" "s" "1m" 60000
        else []) :=
  backfill_two_phases emptySrc [mkCandle 2000000] [] "e" "s" "1m" 60000 none
    3000000 rfl

theorem watch_run_fold (ex sym tf : String) (has_cb : Bool) :
    ∀ (events : List WatchEvent) (st : StreamState),
      (events.foldl (watch_ohlcv_step ex sym tf has_cb) st).processed =
          st.processed + events.length ∧
        (events.foldl (watch_ohlcv_step ex sym tf has_cb) st).callback_log =
          st.callback_log ++
            (if has_cb then
              events.filterMap (fun ev => ev.page.getLast?.map (fun l => l.ts))
            else []) ∧
        (events.foldl (watch_ohlcv_step ex sym tf has_cb) st).write_log =
          st.write_log ++
            events.filterMap
              (fun ev => ev.page.getLast?.map (fun l => (l.ts, !ev.db_error))) := by
  intro events
  induction events with
  | nil => intro st; simp
  | cons ev rest ih =>
    intro st
    simp only [List.foldl_cons, List.filterMap_cons, List.length_cons]
    obtain ⟨ih1, ih2, ih3⟩ := ih (watch_ohlcv_step ex sym tf has_cb st ev)
    cases hl : ev.page.getLast? with
    | none =>
      have hstep : watch_ohlcv_step ex sym tf has_cb st ev =
          { st with processed := st.processed + 1 } := by
        unfold watch_ohlcv_step
        rw [hl]
      rw [hstep] at ih1 ih2 ih3
      rw [hstep]
      refine ⟨?_, ?_, ?_⟩
      · rw [ih1]
        dsimp only
        omega
      · rw [ih2]
        simp
      · rw [ih3]
        simp
    | some latest =>
      have hstep : watch_ohlcv_step ex sym tf has_cb st ev =
          { st with
            store := if ev.db_error then st.store
              else insert_or_replace st.store (rawToCandle ex sym tf latest)
            write_log := st.write_log ++ [(latest.ts, !ev.db_error)]
            callback_log := if has_cb then st.callback_log ++ [latest.ts]
              else st.callback_log
            processed := st.processed + 1 } := by
        unfold watch_ohlcv_step
        rw [hl]
        dsimp only
        split <;> rfl
      rw [hstep] at ih1 ih2 ih3
      rw [hstep]
      refine ⟨?_, ?_, ?_⟩
      · rw [ih1]
        dsimp only
        omega
      · rw [ih2]
        cases has_cb <;> simp
      · rw [ih3]
        simp

/-- C9 counterexample: a single candle update whose store write fails (the
`db.execute` inside `_store_ohlcv` raises; the error is caught and logged
there).  The callback is still invoked for timestamp 100 — the write did not
succeed, the store stays empty — so the callback is not gated on the store
write succeeding. -/
theorem stream_callback_after_failed_write :
    (watch_ohlcv_run "e" "s" "1m" true
          [{ page := [{ ts := 100, o := 1, h := 1, l := 1, c := 1, v := 1 }],
             db_error := true, cb_error := false }]).callback_log = [100] ∧
      (watch_ohlcv_run "e" "s" "1m" true
          [{ page := [{ ts := 100, o := 1, h := 1, l := 1, c := 1, v := 1 }],
             db_error := true, cb_error := false }]).write_log = [(100, false)] ∧
      (watch_ohlcv_run "e" "s" "1m" true
          [{ page := [{ ts := 100, o := 1, h := 1, l := 1, c := 1, v := 1 }],
             db_error := true, cb_error := false }]).store = [] := by
  refine ⟨by decide, by decide, by decide⟩

/-- C9 (corrected): with a callback registered, the `watch_ohlcv` loop
invokes it exactly once per received non-empty candle update, after the
store write for that candle has been attempted — whether or not the attempt
succeeded, since a store error is swallowed inside `_store_ohlcv` — and
neither a store failure nor a failure raised by the callback terminates the
loop: every message of the stream is processed, whatever each event's error
flags are. -/
theorem stream_loop_policy (ex sym tf : String) (events : List WatchEvent) :
    (watch_ohlcv_run ex sym tf true events).processed = events.length ∧
      (watch_ohlcv_run ex sym tf true events).callback_log =
        events.filterMap (fun ev => ev.page.getLast?.map (fun l => l.ts)) ∧
      (watch_ohlcv_run ex sym tf true events).write_log =
        events.filterMap
          (fun ev => ev.page.getLast?.map (fun l => (l.ts, !ev.db_error))) := by
  obtain ⟨h1, h2, h3⟩ := watch_run_fold ex sym tf true events
    { store := [], callback_log := [], write_log := [], processed := 0 }
  unfold watch_ohlcv_run
  refine ⟨by rw [h1]; simp, by rw [h2]; simp, by rw [h3]; simp⟩
